import Mathlib

/-!
Verification of the binary-options backtesting system
(`default.py`, `main_backtest.py`, `shearch.py`, `cuba_trading_hours.py`).

Prices, indicator values and monetary amounts are modelled as rationals;
candle timestamps are natural numbers counting minutes (`hour = t / 60 % 24`,
`date = t / 1440`), matching the minute-granularity `datetime` values of the
source.  Stateful strategy code becomes explicit state passing, one candle at
a time.
-/

namespace Backtest

/-! ## SuperTrend indicator (`SuperTrend.next` in `default.py` / `main_backtest.py`)

The indicator state carried from one ready candle to the next: the `trend`
line (`1` = up, `-1` = down), the `supertrend` band line, and the
`signal_bars` counter.  Warm-up (ATR readiness) is handled by the framework;
the model starts at the first ready candle. -/

structure STState where
  trend : Int
  band : ℚ
  signalBars : ℕ
deriving DecidableEq

/-- Upper band `(high+low)/2 + multiplier*ATR` (source line `upper_band`). -/
def stUpper (high low atr mult : ℚ) : ℚ := (high + low) / 2 + mult * atr

/-- Lower band `(high+low)/2 - multiplier*ATR` (source line `lower_band`). -/
def stLower (high low atr mult : ℚ) : ℚ := (high + low) / 2 - mult * atr

/-- State emitted on the first ready candle (`len(self) == 1` branch):
`supertrend = upper_band`, `trend = 1`, `signal_bars = 0`. -/
def stInit (high low atr mult : ℚ) : STState :=
  { trend := 1, band := stUpper high low atr mult, signalBars := 0 }

/-- One step of `SuperTrend.next` on a subsequent ready candle, translated
from the `else` branch of the source: band/trend transition followed by the
`signal_bars` update (`1` on a flip, otherwise `prev + 1` saturating at
`999`). -/
def stNext (mult : ℚ) (prev : STState) (high low close atr : ℚ) : STState :=
  let upper := stUpper high low atr mult
  let lower := stLower high low atr mult
  let bt : ℚ × Int :=
    if prev.trend = 1 then
      if close ≤ lower then (upper, -1)
      else (max lower prev.band, 1)
    else
      if upper ≤ close then (lower, 1)
      else (min upper prev.band, -1)
  let newBars : ℕ :=
    if prev.trend ≠ bt.2 then 1
    else if prev.signalBars < 999 then prev.signalBars + 1 else 999
  { trend := bt.2, band := bt.1, signalBars := newBars }

/-- Per-candle inputs of the indicator once ready. -/
structure CandleHLCA where
  high : ℚ
  low : ℚ
  close : ℚ
  atr : ℚ

/-- An entire indicator run: the first ready candle initialises the state,
every later ready candle steps it. -/
def stRun (mult : ℚ) (first : CandleHLCA) (rest : List CandleHLCA) : STState :=
  rest.foldl (fun s c => stNext mult s c.high c.low c.close c.atr)
    (stInit first.high first.low first.atr mult)

/-- C1: the SuperTrend per-candle update is the two-state machine of the
spec: from trend up it flips to down with `band = upper` exactly when
`close ≤ lower` and otherwise stays up with `band = max lower prevBand`;
from trend down it flips to up with `band = lower` exactly when
`close ≥ upper` and otherwise stays down with `band = min upper prevBand`;
and the first ready candle yields `trend = 1`, `band = upper`,
`signal_bars = 0`. -/
theorem c1_supertrend_state_machine (mult : ℚ) (prev : STState)
    (high low close atr : ℚ) :
    (stInit high low atr mult =
      { trend := 1, band := stUpper high low atr mult, signalBars := 0 }) ∧
    (prev.trend = 1 →
      ((close ≤ stLower high low atr mult →
          (stNext mult prev high low close atr).trend = -1 ∧
          (stNext mult prev high low close atr).band = stUpper high low atr mult) ∧
       (stLower high low atr mult < close →
          (stNext mult prev high low close atr).trend = 1 ∧
          (stNext mult prev high low close atr).band =
            max (stLower high low atr mult) prev.band))) ∧
    (prev.trend = -1 →
      ((stUpper high low atr mult ≤ close →
          (stNext mult prev high low close atr).trend = 1 ∧
          (stNext mult prev high low close atr).band = stLower high low atr mult) ∧
       (close < stUpper high low atr mult →
          (stNext mult prev high low close atr).trend = -1 ∧
          (stNext mult prev high low close atr).band =
            min (stUpper high low atr mult) prev.band))) := by
  refine ⟨rfl, ?_, ?_⟩
  · intro hup
    constructor
    · intro hle
      simp [stNext, hup, hle]
    · intro hlt
      simp [stNext, hup, not_le.mpr hlt]
  · intro hdn
    have hne : prev.trend ≠ 1 := by rw [hdn]; decide
    constructor
    · intro hge
      simp [stNext, hne, hge]
    · intro hlt
      simp [stNext, hne, not_le.mpr hlt]

/-- Closed instance of `c1_supertrend_state_machine`, discharging each
hypothesis at concrete values: from an up state with `close = 0` at or below
`lower = 1`, the indicator flips to down with `band = upper = 3`. -/
theorem c1_supertrend_state_machine_witness :
    (stNext 1 { trend := 1, band := 5, signalBars := 2 } 3 1 0 1).trend = -1 ∧
    (stNext 1 { trend := 1, band := 5, signalBars := 2 } 3 1 0 1).band = stUpper 3 1 1 1 :=
  ((c1_supertrend_state_machine 1 { trend := 1, band := 5, signalBars := 2 }
      3 1 0 1).2.1 rfl).1 (by norm_num [stLower])

/-- C2: the `signal_bars` counter is set to exactly `1` on any trend flip,
incremented by exactly `1` on a non-flip candle while below `999`, held at
`999` at the saturation point, and over any run (from the first ready
candle) it never exceeds `999`. -/
theorem c2_signal_bars (mult : ℚ) (prev : STState) (high low close atr : ℚ)
    (first : CandleHLCA) (rest : List CandleHLCA) :
    (((stNext mult prev high low close atr).trend ≠ prev.trend →
        (stNext mult prev high low close atr).signalBars = 1) ∧
     ((stNext mult prev high low close atr).trend = prev.trend →
        (prev.signalBars < 999 →
          (stNext mult prev high low close atr).signalBars = prev.signalBars + 1) ∧
        (prev.signalBars = 999 →
          (stNext mult prev high low close atr).signalBars = 999))) ∧
    (stNext mult prev high low close atr).signalBars ≤ 999 ∧
    (stRun mult first rest).signalBars ≤ 999 := by
  have hstep : ∀ (p : STState) (h l c a : ℚ),
      (((stNext mult p h l c a).trend ≠ p.trend →
          (stNext mult p h l c a).signalBars = 1) ∧
       ((stNext mult p h l c a).trend = p.trend →
          (p.signalBars < 999 →
            (stNext mult p h l c a).signalBars = p.signalBars + 1) ∧
          (p.signalBars = 999 → (stNext mult p h l c a).signalBars = 999))) ∧
      (stNext mult p h l c a).signalBars ≤ 999 := by
    intro p h l c a
    unfold stNext
    by_cases hf : p.trend ≠ (if p.trend = 1 then
        (if c ≤ stLower h l a mult then ((stUpper h l a mult : ℚ), (-1 : Int))
         else (max (stLower h l a mult) p.band, 1))
      else
        (if stUpper h l a mult ≤ c then ((stLower h l a mult : ℚ), (1 : Int))
         else (min (stUpper h l a mult) p.band, -1))).2
    · refine ⟨⟨fun _ => by simp [hf], fun he => absurd he.symm hf⟩, ?_⟩
      simp [hf]
    · push_neg at hf
      refine ⟨⟨fun hne => absurd hf.symm hne, fun _ => ?_⟩, ?_⟩
      · constructor
        · intro hlt
          simp [← hf, hlt]
        · intro h999
          simp [← hf, h999]
      · by_cases hlt : p.signalBars < 999
        · simp only [← hf]
          simp only [ne_eq, not_true_eq_false, if_false, if_pos hlt]
          omega
        · simp only [← hf]
          simp only [ne_eq, not_true_eq_false, if_false, if_neg hlt]
          omega
  refine ⟨(hstep prev high low close atr).1, (hstep prev high low close atr).2, ?_⟩
  unfold stRun
  induction rest using List.reverseRecOn with
  | nil => simp [stInit]
  | append_singleton xs x _ =>
      rw [List.foldl_append]
      exact (hstep _ x.high x.low x.close x.atr).2

/-- Closed instance of `c2_signal_bars` at concrete values: on a flip the
counter resets to exactly `1`, and a concrete run stays at most `999`. -/
theorem c2_signal_bars_witness :
    (stNext 1 { trend := 1, band := 5, signalBars := 4 } 3 1 0 1).signalBars = 1 ∧
    (stRun 1 ⟨3, 1, 2, 1⟩ [⟨3, 1, 0, 1⟩]).signalBars ≤ 999 :=
  ⟨(c2_signal_bars 1 { trend := 1, band := 5, signalBars := 4 } 3 1 0 1
      ⟨3, 1, 2, 1⟩ [⟨3, 1, 0, 1⟩]).1.1 (by norm_num [stNext, stUpper, stLower]),
   (c2_signal_bars 1 { trend := 1, band := 5, signalBars := 4 } 3 1 0 1
      ⟨3, 1, 2, 1⟩ [⟨3, 1, 0, 1⟩]).2.2⟩

/-! ## Signal decision engine
(`check_call_conditions` / `check_put_conditions` and the `if/elif` in
`BinaryOptionsStrategy.next`).  `default.py` configures one EMA and
`main_backtest.py` three; the model takes the list of configured EMA values,
`close above every EMA` being their conjunction exactly as in the source. -/

/-- Trade direction (`'CALL'` / `'PUT'` strings in the source). -/
inductive TradeType where
  | call
  | put
deriving DecidableEq

/-- Indicator values visible to the signal engine on one candle. -/
structure SignalInputs where
  close : ℚ
  emas : List ℚ
  trend : Int
  signalBars : ℕ
  adx : ℚ
  rsi : ℚ

/-- Thresholds consumed by the signal engine. -/
structure SignalParams where
  delayBars : ℕ
  adxThreshold : ℚ
  rsiOversold : ℚ
  rsiOverbought : ℚ

/-- `check_call_conditions`: close above every configured EMA, SuperTrend up
for at least `supertrend_delay_bars` bars, `ADX > adx_threshold`,
`RSI < rsi_overbought`. -/
def check_call_conditions (p : SignalParams) (i : SignalInputs) : Bool :=
  i.emas.all (fun e => decide (e < i.close)) &&
  (decide (i.trend = 1) && decide (p.delayBars ≤ i.signalBars)) &&
  decide (p.adxThreshold < i.adx) &&
  decide (i.rsi < p.rsiOverbought)

/-- `check_put_conditions`: close below every configured EMA, SuperTrend down
for at least `supertrend_delay_bars` bars, `ADX > adx_threshold`,
`RSI > rsi_oversold`. -/
def check_put_conditions (p : SignalParams) (i : SignalInputs) : Bool :=
  i.emas.all (fun e => decide (i.close < e)) &&
  (decide (i.trend = -1) && decide (p.delayBars ≤ i.signalBars)) &&
  decide (p.adxThreshold < i.adx) &&
  decide (p.rsiOversold < i.rsi)

/-- The `if check_call_conditions: ... elif check_put_conditions: ...`
dispatch of `BinaryOptionsStrategy.next`: CALL is evaluated first. -/
def signalOf (p : SignalParams) (i : SignalInputs) : Option TradeType :=
  if check_call_conditions p i then some TradeType.call
  else if check_put_conditions p i then some TradeType.put
  else none

/-- C3: the engine returns CALL iff the four CALL conditions all hold, PUT
iff the four PUT conditions all hold, CALL is tried first, and the two
condition sets can never hold together (at most one signal per candle). -/
theorem c3_signal_engine (p : SignalParams) (i : SignalInputs) :
    (signalOf p i = some TradeType.call ↔
      ((∀ e ∈ i.emas, e < i.close) ∧
       (i.trend = 1 ∧ p.delayBars ≤ i.signalBars) ∧
       p.adxThreshold < i.adx ∧ i.rsi < p.rsiOverbought)) ∧
    (signalOf p i = some TradeType.put ↔
      ((∀ e ∈ i.emas, i.close < e) ∧
       (i.trend = -1 ∧ p.delayBars ≤ i.signalBars) ∧
       p.adxThreshold < i.adx ∧ p.rsiOversold < i.rsi)) ∧
    ¬(check_call_conditions p i = true ∧ check_put_conditions p i = true) := by
  have hcall : check_call_conditions p i = true ↔
      ((∀ e ∈ i.emas, e < i.close) ∧
       (i.trend = 1 ∧ p.delayBars ≤ i.signalBars) ∧
       p.adxThreshold < i.adx ∧ i.rsi < p.rsiOverbought) := by
    simp [check_call_conditions, List.all_eq_true, and_assoc]
  have hput : check_put_conditions p i = true ↔
      ((∀ e ∈ i.emas, i.close < e) ∧
       (i.trend = -1 ∧ p.delayBars ≤ i.signalBars) ∧
       p.adxThreshold < i.adx ∧ p.rsiOversold < i.rsi) := by
    simp [check_put_conditions, List.all_eq_true, and_assoc]
  have hexcl : ¬(check_call_conditions p i = true ∧ check_put_conditions p i = true) := by
    rintro ⟨hc, hp⟩
    have h1 : i.trend = 1 := (hcall.mp hc).2.1.1
    have h2 : i.trend = -1 := (hput.mp hp).2.1.1
    rw [h1] at h2
    exact absurd h2 (by decide)
  refine ⟨?_, ?_, hexcl⟩
  · constructor
    · intro h
      by_cases hc : check_call_conditions p i
      · exact hcall.mp hc
      · by_cases hp : check_put_conditions p i <;> simp [signalOf, hc, hp] at h
    · intro h
      simp [signalOf, hcall.mpr h]
  · constructor
    · intro h
      by_cases hc : check_call_conditions p i
      · simp [signalOf, hc] at h
      · by_cases hp : check_put_conditions p i
        · exact hput.mp hp
        · simp [signalOf, hc, hp] at h
    · intro h
      have hc : ¬ check_call_conditions p i = true := fun hc => hexcl ⟨hc, hput.mpr h⟩
      simp [signalOf, hc, hput.mpr h]

/-- Closed instance of `c3_signal_engine`: a concrete candle on which all
four CALL conditions hold fires CALL. -/
theorem c3_signal_engine_witness :
    signalOf ⟨2, 25, 30, 70⟩ ⟨10, [9], 1, 3, 40, 50⟩ = some TradeType.call :=
  (c3_signal_engine ⟨2, 25, 30, 70⟩ ⟨10, [9], 1, 3, 40, 50⟩).1.mpr
    (by norm_num)

/-! ## Trade settlement (`settle_trade`) -/

/-- Outcome recorded for a settled trade (`'WIN'` / `'LOSS'` strings). -/
inductive TradeResult where
  | win
  | loss
deriving DecidableEq

/-- A trade opened by `enter_binary_trade` and waiting in
`self.pending_trades`. -/
structure PendingTrade where
  ttype : TradeType
  entryTime : ℕ
  entryPrice : ℚ
  expiryTime : ℕ
  amount : ℚ
deriving DecidableEq

/-- An entry of `self.trade_log` produced by `settle_trade`. -/
structure SettledTrade where
  entryTime : ℕ
  expiryTime : ℕ
  ttype : TradeType
  entryPrice : ℚ
  exitPrice : ℚ
  result : TradeResult
  pnl : ℚ
deriving DecidableEq

/-- The `won` test of `settle_trade`: a CALL wins iff the exit price is
strictly above the entry price, a PUT iff strictly below. -/
def settleWon (t : TradeType) (entryPrice exitPrice : ℚ) : Bool :=
  match t with
  | TradeType.call => decide (entryPrice < exitPrice)
  | TradeType.put => decide (exitPrice < entryPrice)

/-- The trade-log record built by `settle_trade` from a pending trade, the
settling candle's time and its close price (the exit price). -/
def settleRecord (payout : ℚ) (tr : PendingTrade) (now : ℕ) (exitPrice : ℚ) :
    SettledTrade :=
  { entryTime := tr.entryTime
    expiryTime := now
    ttype := tr.ttype
    entryPrice := tr.entryPrice
    exitPrice := exitPrice
    result := if settleWon tr.ttype tr.entryPrice exitPrice
              then TradeResult.win else TradeResult.loss
    pnl := if settleWon tr.ttype tr.entryPrice exitPrice
           then tr.amount * payout else -tr.amount }

/-- C4: a settled trade is a WIN iff (CALL and `exit > entry`) or (PUT and
`exit < entry`); price equality yields LOSS for both types; and the recorded
pnl is `amount * payout_rate` on WIN and `-amount` on LOSS. -/
theorem c4_settlement (payout : ℚ) (tr : PendingTrade) (now : ℕ) (exitPrice : ℚ) :
    ((settleRecord payout tr now exitPrice).result = TradeResult.win ↔
      ((tr.ttype = TradeType.call ∧ tr.entryPrice < exitPrice) ∨
       (tr.ttype = TradeType.put ∧ exitPrice < tr.entryPrice))) ∧
    (exitPrice = tr.entryPrice →
      (settleRecord payout tr now exitPrice).result = TradeResult.loss) ∧
    ((settleRecord payout tr now exitPrice).result = TradeResult.win →
      (settleRecord payout tr now exitPrice).pnl = tr.amount * payout) ∧
    ((settleRecord payout tr now exitPrice).result = TradeResult.loss →
      (settleRecord payout tr now exitPrice).pnl = -tr.amount) := by
  have hwon : settleWon tr.ttype tr.entryPrice exitPrice = true ↔
      ((tr.ttype = TradeType.call ∧ tr.entryPrice < exitPrice) ∨
       (tr.ttype = TradeType.put ∧ exitPrice < tr.entryPrice)) := by
    cases htt : tr.ttype <;> simp [settleWon]
  refine ⟨?_, ?_, ?_, ?_⟩
  · by_cases hw : settleWon tr.ttype tr.entryPrice exitPrice
    · simp [settleRecord, hw, hwon.mp hw]
    · simp only [settleRecord, hw, if_false, Bool.false_eq_true]
      simp only [← hwon, hw]
      simp
  · intro heq
    have hw : settleWon tr.ttype tr.entryPrice exitPrice = false := by
      cases tr.ttype <;> simp [settleWon, heq]
    simp [settleRecord, hw]
  · intro hres
    by_cases hw : settleWon tr.ttype tr.entryPrice exitPrice
    · simp [settleRecord, hw]
    · simp [settleRecord, hw] at hres
  · intro hres
    by_cases hw : settleWon tr.ttype tr.entryPrice exitPrice
    · simp [settleRecord, hw] at hres
    · simp [settleRecord, hw]

/-- Closed instance of `c4_settlement`: settling a CALL at an exit price
equal to its entry price yields LOSS with pnl `-amount`. -/
theorem c4_settlement_witness :
    (settleRecord (7/10) ⟨TradeType.call, 0, 1, 60, 1⟩ 60 1).result = TradeResult.loss ∧
    (settleRecord (7/10) ⟨TradeType.call, 0, 1, 60, 1⟩ 60 1).pnl = -1 := by
  have h := c4_settlement (7/10) ⟨TradeType.call, 0, 1, 60, 1⟩ 60 1
  have hl := h.2.1 rfl
  exact ⟨hl, by have := h.2.2.2 hl; simpa using this⟩

/-! ## Trade lifecycle manager (`BinaryOptionsStrategy`)

Timestamps are minutes: `hour = t / 60 % 24`, calendar date `t / 1440`,
so `timedelta(minutes=m)` is `+ m` and `total_seconds` comparisons against
`minutes * 60` reduce to minute comparisons. -/

/-- Hour-of-day of a minute timestamp (`current_time.hour`). -/
def hourOf (t : ℕ) : ℤ := ((t / 60) % 24 : ℕ)

/-- Calendar date of a minute timestamp (`current_time.date()`). -/
def dateOf (t : ℕ) : ℕ := t / 1440

/-- Strategy parameters used by the lifecycle manager and signal engine. -/
structure StratCfg where
  delayBars : ℕ
  adxThreshold : ℚ
  rsiOversold : ℚ
  rsiOverbought : ℚ
  expiryMinutes : ℕ
  payoutRate : ℚ
  tradeAmount : ℚ
  maxTradesPerDay : ℕ
  minTimeBetweenTrades : ℕ
  tradingStartHour : ℤ
  tradingEndHour : ℤ
  timezoneOffset : ℤ
  enableTimeFilter : Bool

/-- `is_trading_time`: always true with the filter disabled; otherwise the
UTC hour shifted by `timezone_offset` (Python `%` = euclidean mod) must lie
in `[trading_start_hour, trading_end_hour)`. -/
def is_trading_time (cfg : StratCfg) (t : ℕ) : Bool :=
  if cfg.enableTimeFilter then
    decide (cfg.tradingStartHour ≤ (hourOf t + cfg.timezoneOffset) % 24 ∧
            (hourOf t + cfg.timezoneOffset) % 24 < cfg.tradingEndHour)
  else true

/-- Mutable state of one `BinaryOptionsStrategy` run. -/
structure StratState where
  pending : List PendingTrade
  lastTradeTime : Option ℕ
  dailyTrades : ℕ → ℕ
  totalTrades : ℕ
  winningTrades : ℕ
  losingTrades : ℕ
  totalPnl : ℚ
  tradeLog : List SettledTrade

/-- State at the start of a run (`__init__`): no pending trades, no
`last_trade_time`, all daily counters zero (`defaultdict(int)`), zero
metrics, empty trade log. -/
def initState : StratState :=
  { pending := []
    lastTradeTime := none
    dailyTrades := fun _ => 0
    totalTrades := 0
    winningTrades := 0
    losingTrades := 0
    totalPnl := 0
    tradeLog := [] }

/-- `settle_trade`: update win/loss counters, running pnl, trade count and
append the settlement record, using the current candle's close as the exit
price. -/
def settle_trade (cfg : StratCfg) (now : ℕ) (closeP : ℚ) (st : StratState)
    (tr : PendingTrade) : StratState :=
  let won := settleWon tr.ttype tr.entryPrice closeP
  { st with
    winningTrades := if won then st.winningTrades + 1 else st.winningTrades
    losingTrades := if won then st.losingTrades else st.losingTrades + 1
    totalPnl := st.totalPnl + (if won then tr.amount * cfg.payoutRate else -tr.amount)
    totalTrades := st.totalTrades + 1
    tradeLog := st.tradeLog ++ [settleRecord cfg.payoutRate tr now closeP] }

/-- `check_expired_trades`: settle every pending trade with
`expiry_time ≤ current_time` (in pending order) and drop them from the
pending list. -/
def check_expired_trades (cfg : StratCfg) (now : ℕ) (closeP : ℚ)
    (st : StratState) : StratState :=
  let expired := st.pending.filter (fun tr => decide (tr.expiryTime ≤ now))
  let st1 := expired.foldl (settle_trade cfg now closeP) st
  { st1 with pending := st.pending.filter (fun tr => decide (now < tr.expiryTime)) }

/-- `should_skip_trade`: skip when today's counter has reached
`max_trades_per_day`, or when a previous trade exists closer than
`min_time_between_trades` minutes. -/
def should_skip_trade (cfg : StratCfg) (st : StratState) (now : ℕ) : Bool :=
  if cfg.maxTradesPerDay ≤ st.dailyTrades (dateOf now) then true
  else
    match st.lastTradeTime with
    | some lt => decide ((now : ℤ) - lt < cfg.minTimeBetweenTrades)
    | none => false

/-- `enter_binary_trade`: compute `expiry_time`; when the time filter is
enabled and the expiry falls outside the trading window, discard the signal
leaving the state untouched; otherwise append the pending trade, set
`last_trade_time` and bump today's counter. -/
def enter_binary_trade (cfg : StratCfg) (st : StratState) (tt : TradeType)
    (entryTime : ℕ) (closeP : ℚ) : StratState :=
  let expiry := entryTime + cfg.expiryMinutes
  if cfg.enableTimeFilter && !(is_trading_time cfg expiry) then st
  else
    { st with
      pending := st.pending ++ [⟨tt, entryTime, closeP, expiry, cfg.tradeAmount⟩]
      lastTradeTime := some entryTime
      dailyTrades := Function.update st.dailyTrades (dateOf entryTime)
        (st.dailyTrades (dateOf entryTime) + 1) }

/-- One candle as seen by the strategy: its timestamp and close plus the
externally computed indicator values. -/
structure StratCandle where
  ts : ℕ
  closeP : ℚ
  emas : List ℚ
  trend : Int
  signalBars : ℕ
  adx : ℚ
  rsi : ℚ

/-- The signal engine evaluated on one candle with the run's thresholds. -/
def candleSignal (cfg : StratCfg) (c : StratCandle) : Option TradeType :=
  signalOf ⟨cfg.delayBars, cfg.adxThreshold, cfg.rsiOversold, cfg.rsiOverbought⟩
    ⟨c.closeP, c.emas, c.trend, c.signalBars, c.adx, c.rsi⟩

/-- `BinaryOptionsStrategy.next` on one ready candle: settle expiring trades
first, then apply the trading-hours filter, then the frequency gates, then
evaluate the signal engine and possibly enter a trade. -/
def stratNext (cfg : StratCfg) (st : StratState) (c : StratCandle) : StratState :=
  let st1 := check_expired_trades cfg c.ts c.closeP st
  if is_trading_time cfg c.ts = false then st1
  else if should_skip_trade cfg st1 c.ts then st1
  else
    match candleSignal cfg c with
    | some tt => enter_binary_trade cfg st1 tt c.ts c.closeP
    | none => st1

/-- A whole simulation run over a candle stream. -/
def stratRun (cfg : StratCfg) (cs : List StratCandle) : StratState :=
  cs.foldl (stratNext cfg) initState

/-! ### Basic lemmas about the lifecycle phases -/

lemma settle_foldl_fields (cfg : StratCfg) (now : ℕ) (closeP : ℚ) :
    ∀ (l : List PendingTrade) (st : StratState),
      (l.foldl (settle_trade cfg now closeP) st).tradeLog =
        st.tradeLog ++ l.map (fun tr => settleRecord cfg.payoutRate tr now closeP) ∧
      (l.foldl (settle_trade cfg now closeP) st).pending = st.pending ∧
      (l.foldl (settle_trade cfg now closeP) st).lastTradeTime = st.lastTradeTime ∧
      (l.foldl (settle_trade cfg now closeP) st).dailyTrades = st.dailyTrades := by
  intro l
  induction l with
  | nil => intro st; simp
  | cons tr l ih =>
      intro st
      have h := ih (settle_trade cfg now closeP st tr)
      rw [List.foldl_cons]
      refine ⟨?_, ?_, ?_, ?_⟩
      · rw [h.1]; simp [settle_trade]
      · rw [h.2.1]; simp [settle_trade]
      · rw [h.2.2.1]; simp [settle_trade]
      · rw [h.2.2.2]; simp [settle_trade]

lemma check_expired_fields (cfg : StratCfg) (now : ℕ) (closeP : ℚ)
    (st : StratState) :
    (check_expired_trades cfg now closeP st).tradeLog =
      st.tradeLog ++ (st.pending.filter (fun tr => decide (tr.expiryTime ≤ now))).map
        (fun tr => settleRecord cfg.payoutRate tr now closeP) ∧
    (check_expired_trades cfg now closeP st).pending =
      st.pending.filter (fun tr => decide (now < tr.expiryTime)) ∧
    (check_expired_trades cfg now closeP st).lastTradeTime = st.lastTradeTime ∧
    (check_expired_trades cfg now closeP st).dailyTrades = st.dailyTrades := by
  have h := settle_foldl_fields cfg now closeP
    (st.pending.filter (fun tr => decide (tr.expiryTime ≤ now))) st
  exact ⟨by simp [check_expired_trades, h.1], by simp [check_expired_trades],
    by simp [check_expired_trades, h.2.2.1], by simp [check_expired_trades, h.2.2.2]⟩

lemma enter_fields (cfg : StratCfg) (st : StratState) (tt : TradeType)
    (entryTime : ℕ) (closeP : ℚ) :
    (enter_binary_trade cfg st tt entryTime closeP).tradeLog = st.tradeLog ∧
    (enter_binary_trade cfg st tt entryTime closeP).totalTrades = st.totalTrades ∧
    (enter_binary_trade cfg st tt entryTime closeP).winningTrades = st.winningTrades ∧
    (enter_binary_trade cfg st tt entryTime closeP).losingTrades = st.losingTrades ∧
    (enter_binary_trade cfg st tt entryTime closeP).totalPnl = st.totalPnl ∧
    ((enter_binary_trade cfg st tt entryTime closeP).pending = st.pending ∨
      (enter_binary_trade cfg st tt entryTime closeP).pending =
        st.pending ++ [⟨tt, entryTime, closeP, entryTime + cfg.expiryMinutes,
          cfg.tradeAmount⟩]) := by
  unfold enter_binary_trade
  by_cases h : cfg.enableTimeFilter &&
      !(is_trading_time cfg (entryTime + cfg.expiryMinutes))
  · simp [h]
  · simp [h]

/-- C10: a signal discarded because the expiry time falls outside the
enabled trading-hours window leaves the whole lifecycle state unchanged
(`enter_binary_trade` returns early), and at the candle level the only state
change is the settlement pass — so a discarded signal consumes neither the
daily cap nor the minimum inter-trade gap. -/
theorem c10_discarded_signal_frame (cfg : StratCfg) (st : StratState)
    (tt : TradeType) (t : ℕ) (closeP : ℚ) (c : StratCandle)
    (hfil : cfg.enableTimeFilter = true)
    (hout : is_trading_time cfg (t + cfg.expiryMinutes) = false)
    (hout' : is_trading_time cfg (c.ts + cfg.expiryMinutes) = false) :
    enter_binary_trade cfg st tt t closeP = st ∧
    stratNext cfg st c = check_expired_trades cfg c.ts c.closeP st := by
  constructor
  · unfold enter_binary_trade
    simp [hfil, hout]
  · unfold stratNext
    by_cases h1 : is_trading_time cfg c.ts = false
    · simp [h1]
    · simp only [h1, if_false]
      by_cases h2 : should_skip_trade cfg (check_expired_trades cfg c.ts c.closeP st) c.ts
      · simp [h2]
      · simp only [h2, if_false]
        cases hsig : candleSignal cfg c with
        | none => rfl
        | some tt' =>
            simp only []
            unfold enter_binary_trade
            simp [hfil, hout']

/-- Closed instance of `c10_discarded_signal_frame`: with an `[8,13)` window
a CALL fired at 08:00 with a 600-minute expiry (18:00, outside the window)
is discarded, changing nothing. -/
theorem c10_discarded_signal_frame_witness :
    enter_binary_trade
      { delayBars := 2, adxThreshold := 25, rsiOversold := 30, rsiOverbought := 70,
        expiryMinutes := 600, payoutRate := 7/10, tradeAmount := 1,
        maxTradesPerDay := 10, minTimeBetweenTrades := 3,
        tradingStartHour := 8, tradingEndHour := 13, timezoneOffset := 0,
        enableTimeFilter := true }
      initState TradeType.call 480 10 = initState ∧
    stratNext
      { delayBars := 2, adxThreshold := 25, rsiOversold := 30, rsiOverbought := 70,
        expiryMinutes := 600, payoutRate := 7/10, tradeAmount := 1,
        maxTradesPerDay := 10, minTimeBetweenTrades := 3,
        tradingStartHour := 8, tradingEndHour := 13, timezoneOffset := 0,
        enableTimeFilter := true }
      initState ⟨480, 10, [9], 1, 5, 40, 50⟩ =
      check_expired_trades
        { delayBars := 2, adxThreshold := 25, rsiOversold := 30, rsiOverbought := 70,
          expiryMinutes := 600, payoutRate := 7/10, tradeAmount := 1,
          maxTradesPerDay := 10, minTimeBetweenTrades := 3,
          tradingStartHour := 8, tradingEndHour := 13, timezoneOffset := 0,
          enableTimeFilter := true }
        480 10 initState :=
  c10_discarded_signal_frame _ initState TradeType.call 480 10
    ⟨480, 10, [9], 1, 5, 40, 50⟩ rfl
    (by norm_num [is_trading_time, hourOf]) (by norm_num [is_trading_time, hourOf])

/-- C5 (amended to `BinaryOptionsStrategy.next` of `default.py` /
`main_backtest.py`): the settlement pass runs strictly before the
trading-hours filter, the frequency gates and signal evaluation — the trade
log grows by exactly one record per pending trade with
`expiry_time ≤ candle.timestamp`, each using this candle's close as exit
price; on a filter-rejected candle the candle's whole effect is exactly the
settlement pass; and afterwards the pending list is the unexpired old trades
plus at most one new trade whose entry price is the same close. -/
theorem c5_settlement_before_gates (cfg : StratCfg) (st : StratState)
    (c : StratCandle) :
    (stratNext cfg st c).tradeLog =
      st.tradeLog ++ (st.pending.filter (fun tr => decide (tr.expiryTime ≤ c.ts))).map
        (fun tr => settleRecord cfg.payoutRate tr c.ts c.closeP) ∧
    (is_trading_time cfg c.ts = false →
      stratNext cfg st c = check_expired_trades cfg c.ts c.closeP st) ∧
    ((stratNext cfg st c).pending =
        st.pending.filter (fun tr => decide (c.ts < tr.expiryTime)) ∨
      ∃ tt, (stratNext cfg st c).pending =
        st.pending.filter (fun tr => decide (c.ts < tr.expiryTime)) ++
          [⟨tt, c.ts, c.closeP, c.ts + cfg.expiryMinutes, cfg.tradeAmount⟩]) := by
  have hce := check_expired_fields cfg c.ts c.closeP st
  have hlog : ∀ st', st' = stratNext cfg st c →
      st'.tradeLog = (check_expired_trades cfg c.ts c.closeP st).tradeLog ∧
      (st'.pending = (check_expired_trades cfg c.ts c.closeP st).pending ∨
        ∃ tt, st'.pending = (check_expired_trades cfg c.ts c.closeP st).pending ++
          [⟨tt, c.ts, c.closeP, c.ts + cfg.expiryMinutes, cfg.tradeAmount⟩]) := by
    intro st' hst'
    subst hst'
    unfold stratNext
    by_cases h1 : is_trading_time cfg c.ts = false
    · simp [h1]
    · simp only [h1, if_false]
      by_cases h2 : should_skip_trade cfg (check_expired_trades cfg c.ts c.closeP st) c.ts
      · simp [h2]
      · simp only [h2, if_false]
        cases hsig : candleSignal cfg c with
        | none => simp
        | some tt =>
            have he := enter_fields cfg (check_expired_trades cfg c.ts c.closeP st)
              tt c.ts c.closeP
            refine ⟨he.1, ?_⟩
            rcases he.2.2.2.2.2 with h | h
            · exact Or.inl h
            · exact Or.inr ⟨tt, h⟩
  have h := hlog _ rfl
  refine ⟨by rw [h.1, hce.1], ?_, ?_⟩
  · intro hrej
    unfold stratNext
    simp [hrej]
  · rcases h.2 with hp | ⟨tt, hp⟩
    · exact Or.inl (by rw [hp, hce.2.1])
    · exact Or.inr ⟨tt, by rw [hp, hce.2.1]⟩

/-- Closed instance of `c5_settlement_before_gates`: a candle outside the
trading window still settles the expired pending trade. -/
theorem c5_settlement_before_gates_witness :
    stratNext
      { delayBars := 2, adxThreshold := 25, rsiOversold := 30, rsiOverbought := 70,
        expiryMinutes := 60, payoutRate := 7/10, tradeAmount := 1,
        maxTradesPerDay := 10, minTimeBetweenTrades := 3,
        tradingStartHour := 8, tradingEndHour := 13, timezoneOffset := 0,
        enableTimeFilter := true }
      { initState with pending := [⟨TradeType.call, 0, 1, 60, 1⟩] }
      ⟨100, 2, [9], 1, 5, 40, 50⟩ =
    check_expired_trades
      { delayBars := 2, adxThreshold := 25, rsiOversold := 30, rsiOverbought := 70,
        expiryMinutes := 60, payoutRate := 7/10, tradeAmount := 1,
        maxTradesPerDay := 10, minTimeBetweenTrades := 3,
        tradingStartHour := 8, tradingEndHour := 13, timezoneOffset := 0,
        enableTimeFilter := true }
      100 2 { initState with pending := [⟨TradeType.call, 0, 1, 60, 1⟩] } :=
  (c5_settlement_before_gates _ _ _).2.1 (by norm_num [is_trading_time, hourOf])

/-! ## Cuba-hours strategy variant (`cuba_trading_hours.py`)

`EnhancedBinaryOptionsStrategy.next` overrides the candle handler: the Cuba
hours filter runs FIRST and returns before `check_expired_trades`.  The
`pytz` UTC→`America/Havana` conversion is an external library call; the model
takes the already converted local hour and weekday as candle inputs, the
filter logic itself being translated from the source. -/

/-- Local (Cuba) time parts of a candle timestamp, as produced by
`datetime_utc.astimezone(pytz.timezone(...))`. -/
structure CubaTime where
  hour : ℕ
  weekday : ℕ

/-- `is_good_trading_time_cuba`: weekends rejected, premium hours 9–12 and
good hours 4–7 / 13–15 accepted, everything else rejected. -/
def is_good_trading_time_cuba (ct : CubaTime) : Bool :=
  if 5 ≤ ct.weekday then false
  else if ct.hour ∈ [9, 10, 11, 12] then true
  else if ct.hour ∈ [4, 5, 6, 7, 13, 14, 15] then true
  else false

/-- Market sessions of `get_market_session_cuba`. -/
inductive Session where
  | londonOpen
  | overlap
  | nyActive
  | nyClose
  | lowActivity
deriving DecidableEq

/-- `get_market_session_cuba` on the local hour. -/
def get_market_session_cuba (hour : ℕ) : Session :=
  if 4 ≤ hour ∧ hour ≤ 8 then Session.londonOpen
  else if 9 ≤ hour ∧ hour ≤ 12 then Session.overlap
  else if 13 ≤ hour ∧ hour ≤ 15 then Session.nyActive
  else if 16 ≤ hour ∧ hour ≤ 17 then Session.nyClose
  else Session.lowActivity

/-- `check_call_conditions_enhanced`: the base CALL conditions tightened per
market session. -/
def check_call_conditions_enhanced (cfg : StratCfg) (c : StratCandle)
    (s : Session) : Bool :=
  let basic := check_call_conditions
    ⟨cfg.delayBars, cfg.adxThreshold, cfg.rsiOversold, cfg.rsiOverbought⟩
    ⟨c.closeP, c.emas, c.trend, c.signalBars, c.adx, c.rsi⟩
  if basic = false then false
  else
    match s with
    | Session.overlap => decide ((30 : ℚ) < c.adx) && basic
    | Session.londonOpen => basic
    | Session.nyActive => basic
    | _ => decide ((35 : ℚ) < c.adx) && decide ((50 : ℚ) < c.rsi) && basic

/-- `check_put_conditions_enhanced`: the base PUT conditions tightened per
market session. -/
def check_put_conditions_enhanced (cfg : StratCfg) (c : StratCandle)
    (s : Session) : Bool :=
  let basic := check_put_conditions
    ⟨cfg.delayBars, cfg.adxThreshold, cfg.rsiOversold, cfg.rsiOverbought⟩
    ⟨c.closeP, c.emas, c.trend, c.signalBars, c.adx, c.rsi⟩
  if basic = false then false
  else
    match s with
    | Session.overlap => decide ((30 : ℚ) < c.adx) && basic
    | Session.londonOpen => basic
    | Session.nyActive => basic
    | _ => decide ((35 : ℚ) < c.adx) && decide (c.rsi < (50 : ℚ)) && basic

/-- `EnhancedBinaryOptionsStrategy.next`: the Cuba hours filter runs before
everything else — including the settlement pass — and on rejection the
candle is skipped entirely. -/
def enhancedNext (cfg : StratCfg) (st : StratState) (c : StratCandle)
    (ct : CubaTime) : StratState :=
  if is_good_trading_time_cuba ct = false then st
  else
    let st1 := check_expired_trades cfg c.ts c.closeP st
    if should_skip_trade cfg st1 c.ts then st1
    else
      let s := get_market_session_cuba ct.hour
      if check_call_conditions_enhanced cfg c s then
        enter_binary_trade cfg st1 TradeType.call c.ts c.closeP
      else if check_put_conditions_enhanced cfg c s then
        enter_binary_trade cfg st1 TradeType.put c.ts c.closeP
      else st1

/-- C5 counterexample: in `EnhancedBinaryOptionsStrategy.next`
(`cuba_trading_hours.py`) the trading-hours filter runs before the
settlement pass, so on a rejected candle (02:00 local, a Monday) a pending
trade whose expiry has already passed is NOT settled: the candle leaves the
state unchanged, the trade stays pending and the trade log stays empty —
contradicting the claim that every due trade is settled even on
filter-rejected candles. -/
theorem c5_enhanced_counterexample :
    (⟨TradeType.call, 0, 1, 60, 1⟩ : PendingTrade).expiryTime ≤ 200 ∧
    enhancedNext
      { delayBars := 2, adxThreshold := 25, rsiOversold := 30, rsiOverbought := 70,
        expiryMinutes := 60, payoutRate := 7/10, tradeAmount := 1,
        maxTradesPerDay := 10, minTimeBetweenTrades := 3,
        tradingStartHour := 8, tradingEndHour := 13, timezoneOffset := 0,
        enableTimeFilter := false }
      { initState with pending := [⟨TradeType.call, 0, 1, 60, 1⟩] }
      ⟨200, 2, [9], 1, 5, 40, 50⟩ ⟨2, 0⟩ =
      { initState with pending := [⟨TradeType.call, 0, 1, 60, 1⟩] } ∧
    ({ initState with pending := [⟨TradeType.call, 0, 1, 60, 1⟩] } :
      StratState).tradeLog = [] := by
  refine ⟨by norm_num, ?_, rfl⟩
  unfold enhancedNext
  norm_num [is_good_trading_time_cuba]

/-! ### C6: frequency gates as run invariants -/

/-- Entry timestamps of every trade opened so far: trades still pending plus
trades already settled into the log (settlement preserves `entry_time`). -/
def entryTimes (st : StratState) : List ℕ :=
  st.pending.map (fun tr => tr.entryTime) ++ st.tradeLog.map (fun r => r.entryTime)

/-- Two entry times at least `m` minutes apart. -/
def GapRel (m : ℕ) (a b : ℕ) : Prop := a + m ≤ b ∨ b + m ≤ a

lemma gapRel_symm {m a b : ℕ} (h : GapRel m a b) : GapRel m b a :=
  h.symm.imp id id

lemma should_skip_false_iff (cfg : StratCfg) (st : StratState) (now : ℕ) :
    should_skip_trade cfg st now = false ↔
      (st.dailyTrades (dateOf now) < cfg.maxTradesPerDay ∧
       ∀ l, st.lastTradeTime = some l →
         (cfg.minTimeBetweenTrades : ℤ) ≤ (now : ℤ) - (l : ℤ)) := by
  unfold should_skip_trade
  by_cases hcap : cfg.maxTradesPerDay ≤ st.dailyTrades (dateOf now)
  · rw [if_pos hcap]
    constructor
    · intro h
      exact absurd h (by simp)
    · rintro ⟨h1, -⟩
      exact absurd h1 (not_lt.mpr hcap)
  · rw [if_neg hcap]
    cases h : st.lastTradeTime with
    | none => simp [h]; omega
    | some l => simp [h]; omega

lemma entryTimes_check_expired (cfg : StratCfg) (now : ℕ) (closeP : ℚ)
    (st : StratState) :
    (entryTimes (check_expired_trades cfg now closeP st)).Perm (entryTimes st) := by
  have hce := check_expired_fields cfg now closeP st
  unfold entryTimes
  rw [hce.1, hce.2.1]
  rw [List.map_append, List.map_map]
  have hcomp : (fun r : SettledTrade => r.entryTime) ∘
      (fun tr => settleRecord cfg.payoutRate tr now closeP) =
      fun tr : PendingTrade => tr.entryTime := by
    funext tr
    rfl
  rw [hcomp]
  have hsplit : List.Perm
      ((st.pending.filter (fun tr => decide (now < tr.expiryTime))).map
          (fun tr => tr.entryTime) ++
        (st.pending.filter (fun tr => decide (tr.expiryTime ≤ now))).map
          (fun tr => tr.entryTime))
      (st.pending.map (fun tr => tr.entryTime)) := by
    have hneg : st.pending.filter (fun tr => decide (tr.expiryTime ≤ now)) =
        st.pending.filter (fun tr => !(decide (now < tr.expiryTime))) := by
      apply List.filter_congr
      intro tr _
      rw [← decide_not]
      simp [not_lt]
    rw [hneg, ← List.map_append]
    exact (List.filter_append_perm _ st.pending).map _
  have hcomm : List.Perm
      (st.tradeLog.map (fun r => r.entryTime) ++
        (st.pending.filter (fun tr => decide (tr.expiryTime ≤ now))).map
          (fun tr => tr.entryTime))
      ((st.pending.filter (fun tr => decide (tr.expiryTime ≤ now))).map
          (fun tr => tr.entryTime) ++
        st.tradeLog.map (fun r => r.entryTime)) := List.perm_append_comm
  refine (List.Perm.append_left _ hcomm).trans ?_
  rw [← List.append_assoc]
  exact hsplit.append_right _

/-- The inductive invariant maintained along a run: the daily counters count
exactly the entries on their date and never pass the cap; every entry time
is at most `last_trade_time`, itself at most the bound (the last processed
candle's timestamp); and entry times are pairwise `min_time_between_trades`
apart. -/
def GateInv (cfg : StratCfg) (st : StratState) (b : Option ℕ) : Prop :=
  (∀ d, st.dailyTrades d =
    (entryTimes st).countP (fun t => decide (dateOf t = d))) ∧
  (∀ d, st.dailyTrades d ≤ cfg.maxTradesPerDay) ∧
  (∀ e ∈ entryTimes st, ∃ l, st.lastTradeTime = some l ∧ e ≤ l) ∧
  (∀ l, st.lastTradeTime = some l → ∃ x, b = some x ∧ l ≤ x) ∧
  List.Pairwise (GapRel cfg.minTimeBetweenTrades) (entryTimes st)

lemma gateInv_init (cfg : StratCfg) : GateInv cfg initState none := by
  refine ⟨fun d => rfl, fun d => Nat.zero_le _, ?_, ?_, ?_⟩
  · intro e he
    simp [entryTimes, initState] at he
  · intro l hl
    simp [initState] at hl
  · simp [entryTimes, initState]

lemma gateInv_perm (cfg : StratCfg) (st st' : StratState) (b : Option ℕ)
    (hperm : (entryTimes st').Perm (entryTimes st))
    (hdaily : st'.dailyTrades = st.dailyTrades)
    (hlast : st'.lastTradeTime = st.lastTradeTime)
    (h : GateInv cfg st b) : GateInv cfg st' b := by
  obtain ⟨h1, h2, h3, h4, h5⟩ := h
  refine ⟨?_, ?_, ?_, ?_, ?_⟩
  · intro d
    rw [hdaily, hperm.countP_eq]
    exact h1 d
  · intro d
    rw [hdaily]
    exact h2 d
  · intro e he
    obtain ⟨l, hl, hle⟩ := h3 e (hperm.mem_iff.mp he)
    exact ⟨l, by rw [hlast, hl], hle⟩
  · intro l hl
    exact h4 l (by rw [← hlast, hl])
  · exact (hperm.pairwise_iff (fun h => gapRel_symm h)).mpr h5

lemma gateInv_bound_mono (cfg : StratCfg) (st : StratState) (b : Option ℕ)
    (t : ℕ) (hb : ∀ x, b = some x → x ≤ t) (h : GateInv cfg st b) :
    GateInv cfg st (some t) := by
  obtain ⟨h1, h2, h3, h4, h5⟩ := h
  refine ⟨h1, h2, h3, ?_, h5⟩
  intro l hl
  obtain ⟨x, hx, hlx⟩ := h4 l hl
  exact ⟨t, rfl, le_trans hlx (hb x hx)⟩

lemma gateInv_step (cfg : StratCfg) (st : StratState) (c : StratCandle)
    (b : Option ℕ) (h : GateInv cfg st b) (hb : ∀ x, b = some x → x < c.ts) :
    GateInv cfg (stratNext cfg st c) (some c.ts) := by
  have hb' : ∀ x, b = some x → x ≤ c.ts := fun x hx => le_of_lt (hb x hx)
  have hst1 : GateInv cfg (check_expired_trades cfg c.ts c.closeP st) (some c.ts) := by
    have hce := check_expired_fields cfg c.ts c.closeP st
    exact gateInv_bound_mono cfg _ b c.ts hb'
      (gateInv_perm cfg st _ b (entryTimes_check_expired cfg c.ts c.closeP st)
        hce.2.2.2 hce.2.2.1 h)
  unfold stratNext
  by_cases h1 : is_trading_time cfg c.ts = false
  · rw [if_pos h1]; exact hst1
  · rw [if_neg h1]
    by_cases h2 : should_skip_trade cfg (check_expired_trades cfg c.ts c.closeP st) c.ts = true
    · rw [if_pos h2]; exact hst1
    · rw [if_neg h2]
      cases hsig : candleSignal cfg c with
      | none => simpa using hst1
      | some tt =>
          simp only []
          set st1 := check_expired_trades cfg c.ts c.closeP st with hst1def
          have hskip := (should_skip_false_iff cfg st1 c.ts).mp
            (Bool.not_eq_true _ ▸ (by simpa using h2))
          have he : enter_binary_trade cfg st1 tt c.ts c.closeP = st1 ∨
              enter_binary_trade cfg st1 tt c.ts c.closeP =
                { st1 with
                  pending := st1.pending ++
                    [⟨tt, c.ts, c.closeP, c.ts + cfg.expiryMinutes, cfg.tradeAmount⟩]
                  lastTradeTime := some c.ts
                  dailyTrades := Function.update st1.dailyTrades (dateOf c.ts)
                    (st1.dailyTrades (dateOf c.ts) + 1) } := by
            unfold enter_binary_trade
            by_cases hdisc : cfg.enableTimeFilter &&
                !(is_trading_time cfg (c.ts + cfg.expiryMinutes))
            · left; simp [hdisc]
            · right; simp [hdisc]
          rcases he with he | he
          · rw [he]; exact hst1
          · rw [he]
            obtain ⟨i1, i2, i3, i4, i5⟩ := hst1
            have hperm : List.Perm
                (entryTimes
                  { st1 with
                    pending := st1.pending ++
                      [⟨tt, c.ts, c.closeP, c.ts + cfg.expiryMinutes, cfg.tradeAmount⟩]
                    lastTradeTime := some c.ts
                    dailyTrades := Function.update st1.dailyTrades (dateOf c.ts)
                      (st1.dailyTrades (dateOf c.ts) + 1) })
                (entryTimes st1 ++ [c.ts]) := by
              unfold entryTimes
              simp only [List.map_append, List.map_cons, List.map_nil]
              rw [List.append_assoc, List.append_assoc]
              exact List.Perm.append_left _ List.perm_append_comm
            have hmemnew : ∀ e ∈ entryTimes st1, e ≤ c.ts := by
              intro e hein
              obtain ⟨l, hl, hle⟩ := i3 e hein
              obtain ⟨x, hx, hlx⟩ := i4 l hl
              injection hx with hx'
              subst hx'
              exact le_trans hle hlx
            refine ⟨?_, ?_, ?_, ?_, ?_⟩
            · intro d
              rw [hperm.countP_eq, List.countP_append]
              dsimp only
              rw [Function.update_apply]
              by_cases hd : d = dateOf c.ts
              · subst hd
                simp [List.countP_cons]
                exact i1 (dateOf c.ts)
              · have hd' : ¬(dateOf c.ts = d) := fun hh => hd hh.symm
                simp [List.countP_cons, hd, hd', i1 d]
            · intro d
              dsimp only
              rw [Function.update_apply]
              by_cases hd : d = dateOf c.ts
              · subst hd
                rw [if_pos rfl]
                omega
              · rw [if_neg hd]
                exact i2 d
            · intro e hein
              rw [hperm.mem_iff] at hein
              dsimp only
              rcases List.mem_append.mp hein with hein | hein
              · exact ⟨c.ts, rfl, hmemnew e hein⟩
              · simp at hein
                exact ⟨c.ts, rfl, le_of_eq hein⟩
            · intro l hl
              dsimp only at hl
              simp at hl
              exact ⟨c.ts, rfl, le_of_eq hl.symm⟩
            · refine (hperm.pairwise_iff (fun h => gapRel_symm h)).mpr ?_
              rw [List.pairwise_append]
              refine ⟨i5, List.pairwise_singleton _ _, ?_⟩
              intro a ha b hbmem
              simp at hbmem
              subst hbmem
              left
              rcases hlst : st1.lastTradeTime with _ | l
              · obtain ⟨l, hl, -⟩ := i3 a ha
                rw [hlst] at hl
                exact absurd hl (by simp)
              · obtain ⟨l', hl', hle⟩ := i3 a ha
                rw [hlst] at hl'
                have hll : l' = l := by
                  injection hl' with hv
                  exact hv.symm
                have hgap := hskip.2 l hlst
                have hal : a ≤ l := hll ▸ hle
                have : (a : ℤ) + cfg.minTimeBetweenTrades ≤ c.ts := by omega
                exact_mod_cast this

/-- Strictly increasing candle timestamps, relative to an optional
previously processed timestamp. -/
def IncFrom : Option ℕ → List StratCandle → Prop
  | _, [] => True
  | b, c :: cs => (∀ x, b = some x → x < c.ts) ∧ IncFrom (some c.ts) cs

lemma gateInv_run (cfg : StratCfg) :
    ∀ (cs : List StratCandle) (st : StratState) (b : Option ℕ),
      GateInv cfg st b → IncFrom b cs →
      ∃ b', GateInv cfg (cs.foldl (stratNext cfg) st) b' := by
  intro cs
  induction cs with
  | nil => intro st b h _; exact ⟨b, h⟩
  | cons c cs ih =>
      intro st b h hinc
      exact ih (stratNext cfg st c) (some c.ts)
        (gateInv_step cfg st c b h hinc.1) hinc.2

lemma chain'_incFrom :
    ∀ (cs : List StratCandle) (b : Option ℕ),
      (∀ x, b = some x → ∀ c, cs.head? = some c → x < c.ts) →
      List.Chain' (fun a c => a.ts < c.ts) cs → IncFrom b cs := by
  intro cs
  induction cs with
  | nil => intro b _ _; trivial
  | cons c cs ih =>
      intro b hb hchain
      refine ⟨fun x hx => hb x hx c rfl, ?_⟩
      apply ih
      · intro x hx c' hc'
        cases hx
        cases cs with
        | nil => simp at hc'
        | cons c2 cs2 =>
            simp at hc'
            subst hc'
            exact (List.chain'_cons.mp hchain).1
      · exact hchain.tail

/-- C6: over any run on strictly increasing candle timestamps, no calendar
date accumulates more than `max_trades_per_day` trade entries, and the entry
timestamps of any two trades are at least `min_time_between_trades` minutes
apart. -/
theorem c6_frequency_gates (cfg : StratCfg) (cs : List StratCandle)
    (hinc : List.Chain' (fun a c => a.ts < c.ts) cs) :
    (∀ d, (entryTimes (stratRun cfg cs)).countP
        (fun t => decide (dateOf t = d)) ≤ cfg.maxTradesPerDay) ∧
    List.Pairwise (GapRel cfg.minTimeBetweenTrades)
      (entryTimes (stratRun cfg cs)) := by
  obtain ⟨b', h⟩ := gateInv_run cfg cs initState none (gateInv_init cfg)
    (chain'_incFrom cs none (by simp) hinc)
  unfold stratRun
  refine ⟨?_, h.2.2.2.2⟩
  intro d
  rw [← h.1 d]
  exact h.2.1 d

/-- Closed instance of `c6_frequency_gates` on a concrete two-candle run. -/
theorem c6_frequency_gates_witness :
    (∀ d, (entryTimes (stratRun
        { delayBars := 0, adxThreshold := 25, rsiOversold := 30, rsiOverbought := 70,
          expiryMinutes := 5, payoutRate := 7/10, tradeAmount := 1,
          maxTradesPerDay := 10, minTimeBetweenTrades := 3,
          tradingStartHour := 8, tradingEndHour := 13, timezoneOffset := 0,
          enableTimeFilter := false }
        [⟨1000, 2, [1], 1, 3, 40, 50⟩, ⟨1005, 2, [9], 1, 3, 40, 99⟩])).countP
        (fun t => decide (dateOf t = d)) ≤ 10) ∧
    List.Pairwise (GapRel 3) (entryTimes (stratRun
        { delayBars := 0, adxThreshold := 25, rsiOversold := 30, rsiOverbought := 70,
          expiryMinutes := 5, payoutRate := 7/10, tradeAmount := 1,
          maxTradesPerDay := 10, minTimeBetweenTrades := 3,
          tradingStartHour := 8, tradingEndHour := 13, timezoneOffset := 0,
          enableTimeFilter := false }
        [⟨1000, 2, [1], 1, 3, 40, 50⟩, ⟨1005, 2, [9], 1, 3, 40, 99⟩])) :=
  c6_frequency_gates _ _ (by norm_num [List.chain'_cons])

/-! ## Metrics aggregator (`BinaryOptionsAnalyzer.stop`)

`default.py` and `main_backtest.py` carry two different analyzers; both are
modelled.  The `float('inf')` profit-factor sentinel is `none`. -/

/-- The result record published by an analyzer. -/
structure RunMetrics where
  total_trades : ℕ
  winning_trades : ℕ
  losing_trades : ℕ
  win_rate : ℚ
  total_pnl : ℚ
  avg_pnl_per_trade : ℚ
  profit_factor : Option ℚ
deriving DecidableEq

/-- `BinaryOptionsAnalyzer.stop` of `default.py`: with at least one trade,
`win_rate = (winning/total)*100`, `avg = total_pnl/total`, and
`profit_factor = |total_pnl + losing*amount| / (losing*amount)` when
`losing*amount > 0`, else `inf` when `total_pnl > 0`, else `0`; with zero
trades, the explicit all-zero record. -/
def analyzerStop (cfg : StratCfg) (st : StratState) : RunMetrics :=
  if 0 < st.totalTrades then
    { total_trades := st.totalTrades
      winning_trades := st.winningTrades
      losing_trades := st.losingTrades
      win_rate := ((st.winningTrades : ℚ) / st.totalTrades) * 100
      total_pnl := st.totalPnl
      avg_pnl_per_trade := st.totalPnl / st.totalTrades
      profit_factor :=
        if 0 < (st.losingTrades : ℚ) * cfg.tradeAmount then
          some (|st.totalPnl + (st.losingTrades : ℚ) * cfg.tradeAmount| /
            ((st.losingTrades : ℚ) * cfg.tradeAmount))
        else if 0 < st.totalPnl then none else some 0 }
  else
    { total_trades := 0, winning_trades := 0, losing_trades := 0,
      win_rate := 0, total_pnl := 0, avg_pnl_per_trade := 0,
      profit_factor := some 0 }

/-- `BinaryOptionsAnalyzer.stop` of `main_backtest.py`: only populated when
at least one trade settled (`self.results` stays the empty dict otherwise),
with `profit_factor = |total_pnl / (losing*amount)|` when `losing > 0`, else
`inf`. -/
def analyzerStopMB (cfg : StratCfg) (st : StratState) : Option RunMetrics :=
  if 0 < st.totalTrades then
    some
      { total_trades := st.totalTrades
        winning_trades := st.winningTrades
        losing_trades := st.losingTrades
        win_rate := ((st.winningTrades : ℚ) / st.totalTrades) * 100
        total_pnl := st.totalPnl
        avg_pnl_per_trade := st.totalPnl / st.totalTrades
        profit_factor :=
          if 0 < st.losingTrades then
            some (|st.totalPnl / ((st.losingTrades : ℚ) * cfg.tradeAmount)|)
          else none }
  else none

/-- Gross winning pnl of a trade log: the claim's `sum(pnl for WIN trades)`. -/
def grossWin (log : List SettledTrade) : ℚ :=
  ((log.filter (fun r => decide (r.result = TradeResult.win))).map
    (fun r => r.pnl)).sum

/-- Magnitude of gross losing pnl: the claim's
`abs(sum(pnl for LOSS trades))`. -/
def grossLossAbs (log : List SettledTrade) : ℚ :=
  |((log.filter (fun r => decide (r.result = TradeResult.loss))).map
    (fun r => r.pnl)).sum|

/-- Consistency facts tying the running counters to the trade log, true of
every reachable strategy state. -/
def MetricsInv (cfg : StratCfg) (st : StratState) : Prop :=
  st.totalTrades = st.tradeLog.length ∧
  st.winningTrades =
    (st.tradeLog.filter (fun r => decide (r.result = TradeResult.win))).length ∧
  st.losingTrades =
    (st.tradeLog.filter (fun r => decide (r.result = TradeResult.loss))).length ∧
  st.totalPnl = (st.tradeLog.map (fun r => r.pnl)).sum ∧
  (∀ r ∈ st.tradeLog,
    (r.result = TradeResult.win → r.pnl = cfg.tradeAmount * cfg.payoutRate) ∧
    (r.result = TradeResult.loss → r.pnl = -cfg.tradeAmount)) ∧
  (∀ tr ∈ st.pending, tr.amount = cfg.tradeAmount)

lemma metricsInv_settle_trade (cfg : StratCfg) (now : ℕ) (closeP : ℚ)
    (st : StratState) (tr : PendingTrade) (h : MetricsInv cfg st)
    (htr : tr.amount = cfg.tradeAmount) :
    MetricsInv cfg (settle_trade cfg now closeP st tr) := by
  obtain ⟨m1, m2, m3, m4, m5, m6⟩ := h
  by_cases hw : settleWon tr.ttype tr.entryPrice closeP = true
  · refine ⟨?_, ?_, ?_, ?_, ?_, ?_⟩ <;>
      simp only [settle_trade, settleRecord, hw, if_true, List.filter_append,
        List.length_append, List.map_append, List.sum_append, List.filter_cons,
        List.filter_nil, List.map_cons, List.map_nil, List.sum_cons, List.sum_nil]
    · simp [m1]
    · simp [m2]
    · simp [m3]
    · simp [m4]
    · intro r hr
      rcases List.mem_append.mp hr with hr | hr
      · exact m5 r hr
      · simp at hr
        subst hr
        constructor
        · intro _
          simp [htr]
        · intro hres
          simp at hres
    · exact m6
  · refine ⟨?_, ?_, ?_, ?_, ?_, ?_⟩ <;>
      simp only [settle_trade, settleRecord, hw, if_false, List.filter_append,
        List.length_append, List.map_append, List.sum_append, List.filter_cons,
        List.filter_nil, List.map_cons, List.map_nil, List.sum_cons, List.sum_nil]
    · simp [m1]
    · simp [hw, m2]
    · simp [hw, m3]
    · simp [hw, m4]
    · intro r hr
      rcases List.mem_append.mp hr with hr | hr
      · exact m5 r hr
      · simp [hw] at hr
        subst hr
        constructor
        · intro hres
          simp [hw] at hres
        · intro _
          simp [hw, htr]
    · exact m6

lemma metricsInv_foldl (cfg : StratCfg) (now : ℕ) (closeP : ℚ) :
    ∀ (l : List PendingTrade) (st : StratState), MetricsInv cfg st →
      (∀ tr ∈ l, tr.amount = cfg.tradeAmount) →
      MetricsInv cfg (l.foldl (settle_trade cfg now closeP) st) := by
  intro l
  induction l with
  | nil => intro st h _; exact h
  | cons tr l ih =>
      intro st h hl
      rw [List.foldl_cons]
      exact ih _ (metricsInv_settle_trade cfg now closeP st tr h
        (hl tr (List.mem_cons_self tr l))) (fun t ht => hl t (List.mem_cons_of_mem _ ht))

lemma metricsInv_check_expired (cfg : StratCfg) (now : ℕ) (closeP : ℚ)
    (st : StratState) (h : MetricsInv cfg st) :
    MetricsInv cfg (check_expired_trades cfg now closeP st) := by
  have hfold := metricsInv_foldl cfg now closeP
    (st.pending.filter (fun tr => decide (tr.expiryTime ≤ now))) st h
    (fun tr htr => h.2.2.2.2.2 tr (List.mem_of_mem_filter htr))
  have hpf := settle_foldl_fields cfg now closeP
    (st.pending.filter (fun tr => decide (tr.expiryTime ≤ now))) st
  obtain ⟨m1, m2, m3, m4, m5, m6⟩ := hfold
  refine ⟨m1, m2, m3, m4, m5, ?_⟩
  intro tr htr
  simp only [check_expired_trades] at htr
  exact h.2.2.2.2.2 tr (List.mem_of_mem_filter htr)

lemma metricsInv_step (cfg : StratCfg) (st : StratState) (c : StratCandle)
    (h : MetricsInv cfg st) : MetricsInv cfg (stratNext cfg st c) := by
  have hst1 := metricsInv_check_expired cfg c.ts c.closeP st h
  unfold stratNext
  by_cases h1 : is_trading_time cfg c.ts = false
  · rw [if_pos h1]; exact hst1
  · rw [if_neg h1]
    by_cases h2 : should_skip_trade cfg (check_expired_trades cfg c.ts c.closeP st) c.ts = true
    · rw [if_pos h2]; exact hst1
    · rw [if_neg h2]
      cases hsig : candleSignal cfg c with
      | none => exact hst1
      | some tt =>
          simp only []
          set st1 := check_expired_trades cfg c.ts c.closeP st
          obtain ⟨m1, m2, m3, m4, m5, m6⟩ := hst1
          unfold enter_binary_trade
          by_cases hdisc : (cfg.enableTimeFilter &&
              !(is_trading_time cfg (c.ts + cfg.expiryMinutes))) = true
          · rw [if_pos hdisc]; exact ⟨m1, m2, m3, m4, m5, m6⟩
          · rw [if_neg hdisc]
            refine ⟨m1, m2, m3, m4, m5, ?_⟩
            intro tr htr
            dsimp only at htr
            rcases List.mem_append.mp htr with htr | htr
            · exact m6 tr htr
            · simp at htr
              subst htr
              rfl

lemma metricsInv_run (cfg : StratCfg) (cs : List StratCandle) :
    MetricsInv cfg (stratRun cfg cs) := by
  unfold stratRun
  have hinit : MetricsInv cfg initState := by
    refine ⟨rfl, rfl, rfl, rfl, ?_, ?_⟩ <;> simp [initState]
  induction cs using List.reverseRecOn with
  | nil => exact hinit
  | append_singleton cs c ih =>
      rw [List.foldl_append]
      exact metricsInv_step cfg _ c ih

lemma sum_map_const {α : Type} (f : α → ℚ) (c : ℚ) :
    ∀ (l : List α), (∀ x ∈ l, f x = c) → (l.map f).sum = l.length * c := by
  intro l
  induction l with
  | nil => intro _; simp
  | cons x l ih =>
      intro h
      rw [List.map_cons, List.sum_cons, ih (fun y hy => h y (List.mem_cons_of_mem _ hy)),
        h x (List.mem_cons_self x l), List.length_cons]
      push_cast
      ring

lemma log_partition (log : List SettledTrade) :
    List.Perm
      (log.filter (fun r => decide (r.result = TradeResult.win)) ++
        log.filter (fun r => decide (r.result = TradeResult.loss)))
      log := by
  have hco : log.filter (fun r => decide (r.result = TradeResult.loss)) =
      log.filter (fun r => !(decide (r.result = TradeResult.win))) := by
    apply List.filter_congr
    intro r _
    cases hr : r.result <;> simp [hr]
  rw [hco]
  exact List.filter_append_perm _ _

/-- C7 (amended to the `default.py` analyzer): for every completed run,
`win_rate = 100*winning/total` and `avg = total_pnl/total` (both `0` on a
zero-trade run, whose whole record is zero), and the profit factor equals
`sum(WIN pnl)/abs(sum(LOSS pnl))` whenever there is a loss, is the infinite
sentinel when there are wins but no losses, and is `0` with no wins and no
losses. -/
theorem c7_metrics (cfg : StratCfg) (cs : List StratCandle)
    (ha : 0 < cfg.tradeAmount) (hp : 0 < cfg.payoutRate) :
    ((stratRun cfg cs).totalTrades = 0 →
      analyzerStop cfg (stratRun cfg cs) =
        { total_trades := 0, winning_trades := 0, losing_trades := 0,
          win_rate := 0, total_pnl := 0, avg_pnl_per_trade := 0,
          profit_factor := some 0 }) ∧
    (0 < (stratRun cfg cs).totalTrades →
      (analyzerStop cfg (stratRun cfg cs)).win_rate =
        100 * ((stratRun cfg cs).winningTrades : ℚ) /
          ((stratRun cfg cs).totalTrades : ℚ) ∧
      (analyzerStop cfg (stratRun cfg cs)).avg_pnl_per_trade =
        (stratRun cfg cs).totalPnl / ((stratRun cfg cs).totalTrades : ℚ)) ∧
    ((stratRun cfg cs).winningTrades = 0 ∧ (stratRun cfg cs).losingTrades = 0 →
      (analyzerStop cfg (stratRun cfg cs)).profit_factor = some 0) ∧
    (0 < (stratRun cfg cs).winningTrades ∧ (stratRun cfg cs).losingTrades = 0 →
      (analyzerStop cfg (stratRun cfg cs)).profit_factor = none) ∧
    (0 < (stratRun cfg cs).losingTrades →
      (analyzerStop cfg (stratRun cfg cs)).profit_factor =
        some (grossWin (stratRun cfg cs).tradeLog /
          grossLossAbs (stratRun cfg cs).tradeLog)) := by
  obtain ⟨m1, m2, m3, m4, m5, m6⟩ := metricsInv_run cfg cs
  set st := stratRun cfg cs with hstdef
  have hWin : grossWin st.tradeLog =
      (st.winningTrades : ℚ) * (cfg.tradeAmount * cfg.payoutRate) := by
    unfold grossWin
    rw [sum_map_const _ (cfg.tradeAmount * cfg.payoutRate) _ ?_, ← m2]
    intro r hr
    have hrf := List.mem_filter.mp hr
    exact (m5 r hrf.1).1 (of_decide_eq_true hrf.2)
  have hLsum : ((st.tradeLog.filter (fun r => decide (r.result = TradeResult.loss))).map
      (fun r => r.pnl)).sum = (st.losingTrades : ℚ) * (-cfg.tradeAmount) := by
    rw [sum_map_const _ (-cfg.tradeAmount) _ ?_, ← m3]
    intro r hr
    have hrf := List.mem_filter.mp hr
    exact (m5 r hrf.1).2 (of_decide_eq_true hrf.2)
  have hGL : grossLossAbs st.tradeLog = (st.losingTrades : ℚ) * cfg.tradeAmount := by
    unfold grossLossAbs
    rw [hLsum, mul_neg, abs_neg, abs_of_nonneg]
    exact mul_nonneg (Nat.cast_nonneg _) (le_of_lt ha)
  have hPnl : st.totalPnl =
      (st.winningTrades : ℚ) * (cfg.tradeAmount * cfg.payoutRate) -
        (st.losingTrades : ℚ) * cfg.tradeAmount := by
    rw [m4, ← ((log_partition st.tradeLog).map (fun r => r.pnl)).sum_eq,
      List.map_append, List.sum_append]
    rw [← grossWin, hWin, hLsum]
    ring
  refine ⟨?_, ?_, ?_, ?_, ?_⟩
  · intro hT
    unfold analyzerStop
    rw [if_neg (by omega)]
  · intro hT
    unfold analyzerStop
    rw [if_pos hT]
    exact ⟨by dsimp only; ring, rfl⟩
  · rintro ⟨hW, hL⟩
    by_cases hT : 0 < st.totalTrades
    · unfold analyzerStop
      rw [if_pos hT]
      dsimp only
      have hz : (st.losingTrades : ℚ) * cfg.tradeAmount = 0 := by
        rw [hL]; simp
      rw [if_neg (by rw [hz]; exact lt_irrefl 0)]
      have hp0 : st.totalPnl = 0 := by
        rw [hPnl, hW, hL]; push_cast; ring
      rw [if_neg (by rw [hp0]; exact lt_irrefl 0)]
    · unfold analyzerStop
      rw [if_neg hT]
  · rintro ⟨hW, hL⟩
    have hT : 0 < st.totalTrades := by
      have hle : st.winningTrades ≤ st.totalTrades := by
        rw [m1, m2]; exact List.length_filter_le _ _
      omega
    unfold analyzerStop
    rw [if_pos hT]
    dsimp only
    have hz : (st.losingTrades : ℚ) * cfg.tradeAmount = 0 := by
      rw [hL]; simp
    rw [if_neg (by rw [hz]; exact lt_irrefl 0)]
    have hWq : 0 < (st.winningTrades : ℚ) := by exact_mod_cast hW
    have hppos : 0 < st.totalPnl := by
      rw [hPnl, hL]
      push_cast
      have := mul_pos hWq (mul_pos ha hp)
      linarith
    rw [if_pos hppos]
  · intro hL
    have hT : 0 < st.totalTrades := by
      have hle : st.losingTrades ≤ st.totalTrades := by
        rw [m1, m3]; exact List.length_filter_le _ _
      omega
    unfold analyzerStop
    rw [if_pos hT]
    dsimp only
    have hLq : 0 < (st.losingTrades : ℚ) := by exact_mod_cast hL
    rw [if_pos (mul_pos hLq ha)]
    have hnum : |st.totalPnl + (st.losingTrades : ℚ) * cfg.tradeAmount| =
        grossWin st.tradeLog := by
      rw [hPnl, sub_add_cancel, hWin, abs_of_nonneg]
      exact mul_nonneg (Nat.cast_nonneg _)
        (mul_nonneg (le_of_lt ha) (le_of_lt hp))
    rw [hnum, hGL]

/-- Closed instance of `c7_metrics`: the empty run yields the all-zero
record. -/
theorem c7_metrics_witness :
    analyzerStop
      { delayBars := 0, adxThreshold := 25, rsiOversold := 30, rsiOverbought := 70,
        expiryMinutes := 5, payoutRate := 7/10, tradeAmount := 1,
        maxTradesPerDay := 10, minTimeBetweenTrades := 3,
        tradingStartHour := 8, tradingEndHour := 13, timezoneOffset := 0,
        enableTimeFilter := false }
      (stratRun
        { delayBars := 0, adxThreshold := 25, rsiOversold := 30, rsiOverbought := 70,
          expiryMinutes := 5, payoutRate := 7/10, tradeAmount := 1,
          maxTradesPerDay := 10, minTimeBetweenTrades := 3,
          tradingStartHour := 8, tradingEndHour := 13, timezoneOffset := 0,
          enableTimeFilter := false } []) =
      { total_trades := 0, winning_trades := 0, losing_trades := 0,
        win_rate := 0, total_pnl := 0, avg_pnl_per_trade := 0,
        profit_factor := some 0 } :=
  (c7_metrics _ [] (by norm_num) (by norm_num)).1 rfl

/-- Parameters of the C7 counterexample run. -/
def cfgC7 : StratCfg :=
  { delayBars := 0, adxThreshold := 25, rsiOversold := 30, rsiOverbought := 70,
    expiryMinutes := 5, payoutRate := 7/10, tradeAmount := 1,
    maxTradesPerDay := 10, minTimeBetweenTrades := 3,
    tradingStartHour := 8, tradingEndHour := 13, timezoneOffset := 0,
    enableTimeFilter := false }

/-- Candles of the C7 counterexample run: the first opens a CALL at close 2,
the second settles it five minutes later at the same close (a LOSS). -/
def csC7 : List StratCandle :=
  [⟨1000, 2, [1], 1, 3, 40, 50⟩, ⟨1005, 2, [9], 1, 3, 40, 99⟩]

/-- C7 counterexample: on a run with one losing trade the `main_backtest.py`
analyzer reports `profit_factor = |total_pnl/(losing*amount)| = 1`, whereas
`sum(WIN pnl)/abs(sum(LOSS pnl)) = 0/1 = 0`; and on a zero-trade run it
publishes no record at all instead of the zero metrics. -/
theorem c7_mb_counterexample :
    analyzerStopMB cfgC7 (stratRun cfgC7 csC7) =
      some { total_trades := 1, winning_trades := 0, losing_trades := 1,
             win_rate := 0, total_pnl := -1, avg_pnl_per_trade := -1,
             profit_factor := some 1 } ∧
    grossWin (stratRun cfgC7 csC7).tradeLog = 0 ∧
    grossLossAbs (stratRun cfgC7 csC7).tradeLog = 1 ∧
    (some (1 : ℚ) : Option ℚ) ≠
      some (grossWin (stratRun cfgC7 csC7).tradeLog /
        grossLossAbs (stratRun cfgC7 csC7).tradeLog) ∧
    analyzerStopMB cfgC7 (stratRun cfgC7 []) = none := by
  refine ⟨?_, ?_, ?_, ?_, ?_⟩ <;>
    norm_num [stratRun, stratNext, initState, check_expired_trades, settle_trade,
      settleRecord, settleWon, should_skip_trade, enter_binary_trade,
      is_trading_time, candleSignal, signalOf, check_call_conditions,
      check_put_conditions, hourOf, dateOf, cfgC7, csC7, Function.update_apply,
      analyzerStopMB, grossWin, grossLossAbs, List.filter_cons, List.filter_nil,
      (by decide : TradeResult.loss ≠ TradeResult.win)]

/-! ## Parameter space explorer (`shearch.py`)

`OptimizedParameterSearch.generate_smart_combinations`: a combination is the
list of the 12 parameter values in the declared key order
(`ema1_period, st_period, st_multiplier, adx_period, adx_threshold,
rsi_period, rsi_oversold, rsi_overbought, supertrend_delay_bars,
expiry_minutes, max_trades_per_day, min_time_between_trades`).  The
`random.shuffle` of the full cartesian product is an external randomness
source, modelled as a caller-supplied permutation of the product. -/

/-- `define_parameter_ranges`, in declared order. -/
def paramRanges : List (List ℚ) :=
  [[5, 8, 13, 21], [10, 14, 21], [5/2, 3, 7/2], [14, 21], [25, 30], [14, 21],
   [30, 35], [65, 70], [3, 4, 5], [30, 60, 90], [10, 14], [3, 5]]

/-- `itertools.product` over a list of value lists, leftmost factor slowest
(lexicographic in the declared order). -/
def listProd {α : Type} : List (List α) → List (List α)
  | [] => [[]]
  | l :: ls => l.flatMap (fun x => (listProd ls).map (fun xs => x :: xs))

/-- The three hand-written combinations of `_generate_promising_base`. -/
def promisingBase : List (List ℚ) :=
  [[13, 14, 3, 21, 25, 14, 30, 70, 4, 60, 10, 5],
   [8, 10, 5/2, 14, 30, 14, 35, 65, 3, 30, 14, 3],
   [13, 10, 3, 14, 25, 21, 35, 65, 4, 60, 10, 3]]

/-- `total_combinations`: the cartesian-product size. -/
def paramTotal : ℕ := (paramRanges.map List.length).prod

/-- `_generate_random_combinations`: walk the shuffled product, skip
combinations already in `exclude`, stop after `count`. -/
def generate_random_combinations (shuffled : List (List ℚ)) (count : ℕ)
    (exclude : List (List ℚ)) : List (List ℚ) :=
  (shuffled.filter (fun a => !(decide (a ∈ exclude)))).take count

/-- `generate_smart_combinations`: full product when it fits in
`max_combinations`, otherwise the promising base plus random combinations up
to the target (or a prefix of the base when the target is not larger than
the base). -/
def generate_smart_combinations (maxC : ℕ) (shuffled : List (List ℚ)) :
    List (List ℚ) :=
  if paramTotal ≤ maxC then listProd paramRanges
  else
    let base := promisingBase
    let remaining := maxC - base.length
    if 0 < remaining then
      base ++ generate_random_combinations shuffled remaining base
    else base.take maxC

lemma mem_listProd {α : Type} :
    ∀ (ls : List (List α)) (as : List α),
      as ∈ listProd ls ↔ List.Forall₂ (fun a l => a ∈ l) as ls := by
  intro ls
  induction ls with
  | nil =>
      intro as
      simp [listProd, List.forall₂_nil_right_iff]
  | cons l ls ih =>
      intro as
      simp only [listProd, List.mem_flatMap, List.mem_map]
      constructor
      · rintro ⟨x, hx, xs, hxs, rfl⟩
        exact List.Forall₂.cons hx ((ih xs).mp hxs)
      · intro h
        cases h with
        | cons ha hrest =>
            exact ⟨_, ha, _, (ih _).mpr hrest, rfl⟩

lemma nat_sum_map_const {α : Type} (c : ℕ) :
    ∀ l : List α, (l.map (fun _ => c)).sum = l.length * c := by
  intro l
  induction l with
  | nil => simp
  | cons x l ih => simp [ih, Nat.succ_mul, Nat.add_comm]

lemma length_listProd {α : Type} :
    ∀ ls : List (List α), (listProd ls).length = (ls.map List.length).prod := by
  intro ls
  induction ls with
  | nil => simp [listProd]
  | cons l ls ih =>
      simp only [listProd, List.length_flatMap, List.map_map, List.map_cons,
        List.prod_cons]
      have : (l.map fun x => ((listProd ls).map (fun xs => x :: xs)).length) =
          l.map (fun _ => (listProd ls).length) := by
        apply List.map_congr_left
        intro x _
        simp
      rw [show (List.map (List.length ∘ fun x => List.map (fun xs => x :: xs)
          (listProd ls)) l) = l.map (fun _ => (listProd ls).length) from ?_,
        nat_sum_map_const, ih]
      · apply List.map_congr_left
        intro x _
        simp

lemma nodup_listProd {α : Type} [DecidableEq α] :
    ∀ ls : List (List α), (∀ l ∈ ls, l.Nodup) → (listProd ls).Nodup := by
  intro ls
  induction ls with
  | nil => intro _; simp [listProd]
  | cons l ls ih =>
      intro h
      have hl : l.Nodup := h l (List.mem_cons_self l ls)
      have hrest : (listProd ls).Nodup :=
        ih (fun l' hl' => h l' (List.mem_cons_of_mem _ hl'))
      rw [listProd, List.nodup_flatMap]
      constructor
      · intro x _
        exact hrest.map (fun a b hab => by injection hab)
      · exact hl.imp (fun hxy => by
          intro z hz1 hz2
          simp only [List.mem_map] at hz1 hz2
          obtain ⟨t1, -, rfl⟩ := hz1
          obtain ⟨t2, -, ht⟩ := hz2
          exact hxy (by injection ht with h1 _; exact h1.symm))

lemma sorted_listProd {α : Type} [LinearOrder α] :
    ∀ ls : List (List α), (∀ l ∈ ls, l.Sorted (· < ·)) →
      (listProd ls).Pairwise (List.Lex (· < ·)) := by
  intro ls
  induction ls with
  | nil => intro _; simp [listProd]
  | cons l ls ih =>
      intro h
      have hrest : (listProd ls).Pairwise (List.Lex (· < ·)) :=
        ih (fun l' hl' => h l' (List.mem_cons_of_mem _ hl'))
      have hl : l.Sorted (· < ·) := h l (List.mem_cons_self l ls)
      rw [listProd]
      clear h
      induction l with
      | nil => simp
      | cons x xs ihx =>
          rw [List.flatMap_cons, List.pairwise_append]
          refine ⟨?_, ihx (List.sorted_cons.mp hl).2, ?_⟩
          · exact hrest.map _ (fun _ _ hab => List.Lex.cons hab)
          · intro a ha b hb
            simp only [List.mem_map] at ha
            obtain ⟨t1, -, rfl⟩ := ha
            simp only [List.mem_flatMap, List.mem_map] at hb
            obtain ⟨y, hy, t2, -, rfl⟩ := hb
            exact List.Lex.rel ((List.sorted_cons.mp hl).1 y hy)

lemma paramRanges_sorted : ∀ l ∈ paramRanges, l.Sorted (· < ·) := by
  intro l hl
  fin_cases hl <;> norm_num [List.sorted_cons]

lemma promisingBase_sub : ∀ b ∈ promisingBase, b ∈ listProd paramRanges := by
  intro b hb
  rw [mem_listProd]
  fin_cases hb <;>
    · simp only [paramRanges, List.forall₂_cons, List.forall₂_nil_right_iff]
      norm_num

/-- C8: with the shuffle modelled as any permutation of the cartesian
product — if the product size fits within `max_combinations` the Explorer
generates exactly the whole product, in lexicographic order of the declared
value lists, without duplicates; otherwise it generates exactly
`max_combinations` pairwise-distinct combinations, each drawn from the
declared value lists. -/
theorem c8_explorer_generation (maxC : ℕ) (shuffled : List (List ℚ))
    (hperm : shuffled.Perm (listProd paramRanges)) :
    (paramTotal ≤ maxC →
      generate_smart_combinations maxC shuffled = listProd paramRanges ∧
      (listProd paramRanges).length = paramTotal ∧
      (listProd paramRanges).Nodup ∧
      (listProd paramRanges).Pairwise (List.Lex (· < ·))) ∧
    (maxC < paramTotal →
      (generate_smart_combinations maxC shuffled).length = maxC ∧
      (generate_smart_combinations maxC shuffled).Nodup ∧
      ∀ a ∈ generate_smart_combinations maxC shuffled,
        a ∈ listProd paramRanges) := by
  have hNodupProd : (listProd paramRanges).Nodup :=
    nodup_listProd _ (fun l hl => (paramRanges_sorted l hl).nodup)
  have hLen : (listProd paramRanges).length = paramTotal :=
    length_listProd paramRanges
  have hBaseNodup : promisingBase.Nodup := by norm_num [promisingBase]
  constructor
  · intro h
    unfold generate_smart_combinations
    rw [if_pos h]
    exact ⟨rfl, hLen, hNodupProd, sorted_listProd _ paramRanges_sorted⟩
  · intro h
    unfold generate_smart_combinations
    rw [if_neg (not_le.mpr h)]
    by_cases hbig : 0 < maxC - promisingBase.length
    · rw [if_pos hbig]
      have hsplen : shuffled.length = paramTotal := by
        rw [hperm.length_eq, hLen]
      have hfperm : (shuffled.filter (fun a => !(decide (a ∈ promisingBase)))).length =
          ((listProd paramRanges).filter
            (fun a => !(decide (a ∈ promisingBase)))).length :=
        (hperm.filter _).length_eq
      have hinlen : ((listProd paramRanges).filter
          (fun a => decide (a ∈ promisingBase))).length ≤ 3 := by
        have hsub : ((listProd paramRanges).filter
            (fun a => decide (a ∈ promisingBase))) ⊆ promisingBase := by
          intro a ha
          exact of_decide_eq_true (List.mem_filter.mp ha).2
        have hnd : ((listProd paramRanges).filter
            (fun a => decide (a ∈ promisingBase))).Nodup := hNodupProd.filter _
        exact hnd.subperm hsub |>.length_le
      have hsplit : ((listProd paramRanges).filter
            (fun a => decide (a ∈ promisingBase))).length +
          ((listProd paramRanges).filter
            (fun a => !(decide (a ∈ promisingBase)))).length =
          paramTotal := by
        rw [← hLen]
        induction listProd paramRanges with
        | nil => simp
        | cons a l ihl =>
            by_cases ha : a ∈ promisingBase <;>
              simp [List.filter_cons, ha, ihl] <;> omega
      have hbl : promisingBase.length = 3 := rfl
      have hflen : maxC - promisingBase.length ≤
          (shuffled.filter (fun a => !(decide (a ∈ promisingBase)))).length := by
        rw [hfperm, hbl]
        omega
      have htake : (generate_random_combinations shuffled
          (maxC - promisingBase.length) promisingBase).length =
          maxC - promisingBase.length := by
        unfold generate_random_combinations
        rw [List.length_take]
        omega
      refine ⟨?_, ?_, ?_⟩
      · rw [List.length_append, htake]
        rw [hbl] at hbig ⊢
        omega
      · apply hBaseNodup.append
        · have hnd : shuffled.Nodup := (hperm.nodup_iff).mpr hNodupProd
          exact ((List.take_sublist _ _).nodup (hnd.filter _))
        · intro a ha hb
          have := List.mem_filter.mp
            ((List.take_subset _ _) hb)
          exact absurd (decide_eq_true ha) (by simpa using this.2)
      · intro a ha
        rcases List.mem_append.mp ha with ha | ha
        · exact promisingBase_sub a ha
        · exact hperm.subset (List.mem_of_mem_filter ((List.take_subset _ _) ha))
    · rw [if_neg hbig]
      refine ⟨?_, (List.take_sublist _ _).nodup hBaseNodup, ?_⟩
      · rw [List.length_take]
        rw [show promisingBase.length = 3 from rfl] at hbig ⊢
        omega
      · intro a ha
        exact promisingBase_sub a ((List.take_subset _ _) ha)

/-- Closed instance of `c8_explorer_generation`: with `max_combinations = 5`
(and the identity shuffle) the sampled mode yields exactly 5 distinct
combinations from the declared lists. -/
theorem c8_explorer_generation_witness :
    (generate_smart_combinations 5 (listProd paramRanges)).length = 5 ∧
    (generate_smart_combinations 5 (listProd paramRanges)).Nodup ∧
    ∀ a ∈ generate_smart_combinations 5 (listProd paramRanges),
      a ∈ listProd paramRanges :=
  (c8_explorer_generation 5 (listProd paramRanges) (List.Perm.refl _)).2
    (by norm_num [paramTotal, paramRanges])

/-! ## Top-K result trackers (`TopResultsTracker` in `shearch.py`)

Each tracker pushes the tuple `(-metric, result)` onto a `heapq` MIN-heap.
Because the stored key is the negated metric, the root `heap[0]` carries the
smallest negated key, i.e. an element attaining the LARGEST stored metric,
and `-heap[0][0]` is that stored maximum.  The heap is modelled as the
multiset of stored results: `heappush` inserts, `heapreplace` removes one
maximum-attaining element (the root) and inserts the candidate. -/

/-- `OptimizedResult`: the metrics a tracker ranks, plus the combination
id used for deduplication (`profit_factor = none` is the `inf` sentinel). -/
structure OptResult where
  win_rate : ℚ
  total_pnl : ℚ
  profit_factor : Option ℚ
  total_trades : ℕ
  winning_trades : ℕ
  losing_trades : ℕ
  combination_id : ℕ
deriving DecidableEq

/-- `OptimizedResult.score`: `0.3·min(win_rate/100,1) +
0.4·min(max(total_pnl/100,-1),1) + 0.3·(min(pf/5,1)` or `1` for the
infinite sentinel). -/
def scoreOf (r : OptResult) : ℚ :=
  3/10 * min (r.win_rate / 100) 1 +
  4/10 * min (max (r.total_pnl / 100) (-1)) 1 +
  3/10 * (match r.profit_factor with
          | none => 1
          | some v => min (v / 5) 1)

/-- Smallest metric held by a tracker heap — the "current worst" of the
claim and of the spec's bounded min-structure; `0` on the empty heap. -/
def heapMin (metric : OptResult → ℚ) : List OptResult → ℚ
  | [] => 0
  | x :: xs => xs.foldl (fun m r => min m (metric r)) (metric x)

/-- The metric read off the heap root as `-heap[0][0]`: with negated keys on
a min-heap this is the LARGEST stored metric, not the smallest. -/
def heapTop (metric : OptResult → ℚ) : List OptResult → ℚ
  | [] => 0
  | x :: xs => xs.foldl (fun m r => max m (metric r)) (metric x)

/-- One heap update of `add_result`, as coded: push while below capacity;
once full, the guard `metric > -heap[0][0]` admits the candidate only when
it strictly exceeds the stored MAXIMUM, and `heapreplace` then evicts a
maximum-attaining element (the root). -/
def trackStep (K : ℕ) (metric : OptResult → ℚ) (h : List OptResult)
    (r : OptResult) : List OptResult :=
  if h.length < K then r :: h
  else if heapTop metric h < metric r then
    r :: h.eraseP (fun x => decide (metric x = heapTop metric h))
  else h

/-- The three bounded rankings plus the deduplication id set. -/
structure Tracker where
  byWinrate : List OptResult
  byPnl : List OptResult
  byScore : List OptResult
  allIds : List ℕ

/-- Freshly constructed `TopResultsTracker`. -/
def initTracker : Tracker := ⟨[], [], [], []⟩

/-- `TopResultsTracker.add_result`: drop duplicates by combination id, then
update the three heaps and record the id. -/
def add_result (K : ℕ) (t : Tracker) (r : OptResult) : Tracker :=
  if r.combination_id ∈ t.allIds then t
  else
    { byWinrate := trackStep K (fun x => x.win_rate) t.byWinrate r
      byPnl := trackStep K (fun x => x.total_pnl) t.byPnl r
      byScore := trackStep K scoreOf t.byScore r
      allIds := r.combination_id :: t.allIds }

/-- Feeding a whole candidate sequence to one tracker. -/
def foldTracker (K : ℕ) (rs : List OptResult) : Tracker :=
  rs.foldl (add_result K) initTracker

/-- First candidate of the C9 failing input: win rate 10. -/
def rA : OptResult :=
  { win_rate := 10, total_pnl := 0, profit_factor := some 0,
    total_trades := 5, winning_trades := 1, losing_trades := 4,
    combination_id := 1 }

/-- Second candidate of the C9 failing input: win rate 30. -/
def rB : OptResult :=
  { win_rate := 30, total_pnl := 0, profit_factor := some 0,
    total_trades := 5, winning_trades := 1, losing_trades := 4,
    combination_id := 2 }

/-- Third candidate of the C9 failing input: win rate 20, strictly above the
tracker minimum 10 when it arrives. -/
def rC : OptResult :=
  { win_rate := 20, total_pnl := 0, profit_factor := some 0,
    total_trades := 5, winning_trades := 1, losing_trades := 4,
    combination_id := 3 }

/-- C9: evaluation of the tracker at the failing input.  With capacity 2 and
candidates of win rates 10, 30, 20 (fresh ids), the win-rate heap fills with
{10, 30}; the third candidate is then compared against the stored MAXIMUM 30
(the negated-key heap root), not the minimum, and is discarded — although
its metric 20 strictly exceeds the tracker's minimum 10, which the claim
says may never happen, and the claimed replacement of the current worst by
20 never occurs.  The code thus contradicts the claim (and its own
`TopResultsTracker` docstring of keeping the top N best). -/
theorem c9_tracker_discards_above_minimum :
    (foldTracker 2 [rA, rB, rC]).byWinrate = [rB, rA] ∧
    rC ∉ (foldTracker 2 [rA, rB, rC]).byWinrate ∧
    heapMin (fun x => x.win_rate) ((foldTracker 2 [rA, rB, rC]).byWinrate) =
      rA.win_rate ∧
    rA.win_rate < rC.win_rate := by
  have h1 : add_result 2 initTracker rA = ⟨[rA], [rA], [rA], [1]⟩ := by
    norm_num [add_result, initTracker, trackStep, rA]
  have h2 : add_result 2 ⟨[rA], [rA], [rA], [1]⟩ rB =
      ⟨[rB, rA], [rB, rA], [rB, rA], [2, 1]⟩ := by
    norm_num [add_result, trackStep, rA, rB]
  have h3 : (add_result 2 ⟨[rB, rA], [rB, rA], [rB, rA], [2, 1]⟩ rC).byWinrate =
      [rB, rA] := by
    norm_num [add_result, trackStep, heapTop, rA, rB, rC]
  have hfold : (foldTracker 2 [rA, rB, rC]).byWinrate = [rB, rA] := by
    unfold foldTracker
    rw [List.foldl_cons, List.foldl_cons, List.foldl_cons, List.foldl_nil,
      h1, h2, h3]
  refine ⟨hfold, ?_, ?_, by norm_num [rA, rC]⟩
  · rw [hfold]
    norm_num [rA, rB, rC, OptResult.mk.injEq]
  · rw [hfold]
    norm_num [heapMin, rA, rB]

end Backtest
